import Mathlib

set_option maxHeartbeats 1000000

/-!
Shallow embedding of `src/app.py` (Captain Data export processor).

Python cell values are modelled by `PyVal`; Python dicts are association
lists in insertion order (keys unique in genuine Python dicts), Python
lists are Lean lists.  `json.loads` is a parameter `dec : String → Option PyVal`
(`Option.none` = decode raises, caught by the `except` in `safe_json_loads`).
Floats only ever reach the pipeline as NaN (from empty CSV cells), so the
numeric constructors are `int`, `rat` and the marker `nan`.
-/

inductive PyVal where
  | none : PyVal
  | nan : PyVal
  | bool : Bool → PyVal
  | int : Int → PyVal
  | rat : ℚ → PyVal
  | str : String → PyVal
  | list : List PyVal → PyVal
  | dict : List (String × PyVal) → PyVal

/-- Python `str.strip` whitespace class (ASCII part). -/
def pyIsSpace (c : Char) : Bool :=
  c == ' ' || c == '\t' || c == '\n' || c == '\r' || c == '\x0b' || c == '\x0c'

def dropLeading : List Char → List Char
  | [] => []
  | c :: cs => if pyIsSpace c then dropLeading cs else c :: cs

/-- Python `str.strip()`: drop whitespace at both ends. -/
def stripChars (cs : List Char) : List Char :=
  (dropLeading (dropLeading cs).reverse).reverse

/-- Python `str.lower()` (ASCII model). -/
def lowerList (cs : List Char) : List Char := cs.map Char.toLower

def isPrefOf : List Char → List Char → Bool
  | [], _ => true
  | _ :: _, [] => false
  | a :: as, b :: bs => a == b && isPrefOf as bs

/-- Python substring test `needle in hay`. -/
def subIn (needle : List Char) : List Char → Bool
  | [] => needle.isEmpty
  | c :: hs => isPrefOf needle (c :: hs) || subIn needle hs

/-- Python `repr` for container elements (string formatting of nested values). -/
def pyRepr : PyVal → String
  | PyVal.none => "None"
  | PyVal.nan => "nan"
  | PyVal.bool b => if b then "True" else "False"
  | PyVal.int n => toString n
  | PyVal.rat q => toString q
  | PyVal.str s => "\x27" ++ s ++ "\x27"
  | PyVal.list l => "[" ++ String.intercalate ", " (l.attach.map (fun p => pyRepr p.1)) ++ "]"
  | PyVal.dict d =>
      "\x7b" ++
        String.intercalate ", "
          (d.attach.map (fun p => "\x27" ++ p.1.1 ++ "\x27: " ++ pyRepr p.1.2)) ++ "\x7d"
decreasing_by
  · have h := List.sizeOf_lt_of_mem p.2
    simp at h ⊢
    omega
  · obtain ⟨⟨k, v⟩, hp⟩ := p
    have h := List.sizeOf_lt_of_mem hp
    simp at h ⊢
    omega

/-- Python `str(x)`.  Scalar cases are spelled out so they unfold by iota
reduction; containers delegate to `pyRepr`. -/
def pyStr : PyVal → String
  | PyVal.none => "None"
  | PyVal.nan => "nan"
  | PyVal.bool b => if b then "True" else "False"
  | PyVal.int n => toString n
  | PyVal.rat q => toString q
  | PyVal.str s => s
  | PyVal.list l => pyRepr (PyVal.list l)
  | PyVal.dict d => pyRepr (PyVal.dict d)

/-- Python truthiness. -/
def truthy : PyVal → Bool
  | PyVal.none => false
  | PyVal.nan => true
  | PyVal.bool b => b
  | PyVal.int n => n != 0
  | PyVal.rat q => q != 0
  | PyVal.str s => !s.data.isEmpty
  | PyVal.list [] => false
  | PyVal.list (_ :: _) => true
  | PyVal.dict [] => false
  | PyVal.dict (_ :: _) => true

/-- Python `a or b` (value-returning, truthiness-driven). -/
def pyOr (a b : PyVal) : PyVal := if truthy a then a else b

/-- Python `d.get(k)` on a dict: value of the (unique) matching key. -/
def dictGet? (k : String) : List (String × PyVal) → Option PyVal
  | [] => Option.none
  | p :: ps => if p.1 == k then some p.2 else dictGet? k ps

/-- Python `k in d` on a dict. -/
def dictHasKey (k : String) : List (String × PyVal) → Bool
  | [] => false
  | p :: ps => p.1 == k || dictHasKey k ps

/-- Python `d.pop(k)` (the removal part): delete the matching entry. -/
def dictPop (k : String) : List (String × PyVal) → List (String × PyVal)
  | [] => []
  | p :: ps => if p.1 == k then ps else p :: dictPop k ps

/-- Python `d[k] = v`: replace in place if the key exists, else append. -/
def dictSet (k : String) (v : PyVal) : List (String × PyVal) → List (String × PyVal)
  | [] => [(k, v)]
  | p :: ps => if p.1 == k then (k, v) :: ps else p :: dictSet k v ps

/-- `d.get(k)` with Python's implicit `None` default. -/
def dGet (d : List (String × PyVal)) (k : String) : PyVal :=
  (dictGet? k d).getD PyVal.none

/-- `pd.isna` on the scalar cell values this pipeline feeds it. -/
def pdIsna : PyVal → Bool
  | PyVal.none => true
  | PyVal.nan => true
  | _ => false

/-- Python `x == ""`. -/
def eqEmptyStr : PyVal → Bool
  | PyVal.str s => s.data.isEmpty
  | _ => false

def ambiguousTruthMsg : String :=
  "ValueError: The truth value of an array with more than one element is ambiguous"

mutual
/-- Truth evaluation of the elementwise numpy boolean array that `pd.isna`
returns on a Python list, as forced by the bare `or` on line 11 of
`src/app.py`: an array with exactly one cell yields that cell, an array
with two or more cells raises `ValueError`, and the empty array evaluates
to `False` (NumPy 1.x semantics; a `DeprecationWarning` there).  A
singleton list whose element is itself a list only adds an array
dimension, so its cell count — and hence the verdict — is that of the
inner list. -/
def npIsnaTruth : List PyVal → Except String Bool
  | [] => Except.ok false
  | [v] => npTruthCell v
  | _ :: _ :: _ => Except.error ambiguousTruthMsg

/-- The single cell of a one-element `pd.isna` array: `pd.isna` of that
element for a non-list element, one more nesting level otherwise. -/
def npTruthCell : PyVal → Except String Bool
  | PyVal.list inner => npIsnaTruth inner
  | w => Except.ok (pdIsna w)
end

/-- `bool(pd.isna(x))` as the `or` on line 11 evaluates it: the scalar
null/NaN test for scalar-like values (dicts included — pandas treats a
dict as not list-like), the array truth evaluation for Python lists. -/
def pdIsnaBool : PyVal → Except String Bool
  | PyVal.list l => npIsnaTruth l
  | x => Except.ok (pdIsna x)

/-- `safe_json_loads` from `src/app.py` lines 10-18.  `dec` stands for
`json.loads`; `json.loads` applied to a non-string raises `TypeError`,
which the bare `except` turns into `None`, hence the final catch-all.
The `try` wraps only `json.loads`, so the `ValueError` that the array
truth evaluation of `pd.isna(x)` raises on line 11 for a multi-cell
sequence propagates to the caller. -/
def safe_json_loads (dec : String → Option PyVal) (x : PyVal) : Except String PyVal :=
  match pdIsnaBool x with
  | Except.error e => Except.error e
  | Except.ok b =>
      if b || eqEmptyStr x then Except.ok PyVal.none
      else
        match x with
        | PyVal.dict _ => Except.ok x
        | PyVal.list _ => Except.ok x
        | PyVal.str s =>
            match dec s with
            | some v => Except.ok v
            | Option.none => Except.ok PyVal.none
        | _ => Except.ok PyVal.none

/-- `Series.apply f` for a fallible per-cell function: pandas applies `f`
cell by cell and the first raising cell aborts the whole `apply`. -/
def applyCol (f : PyVal → Except String PyVal) : List PyVal → Except String (List PyVal)
  | [] => Except.ok []
  | v :: vs =>
      match f v with
      | Except.error e => Except.error e
      | Except.ok w =>
          match applyCol f vs with
          | Except.error e => Except.error e
          | Except.ok ws => Except.ok (w :: ws)

/-- Body of the per-item loop of `fix_job_period_key` (`src/app.py` lines 26-31). -/
def fixItem (e : PyVal) : PyVal :=
  match e with
  | PyVal.dict d =>
      if dictHasKey "job_period" d && ! dictHasKey "job_time_period" d then
        PyVal.dict
          (dictSet "job_time_period" ((dictGet? "job_period" d).getD PyVal.none)
            (dictPop "job_period" d))
      else e
  | _ => e

/-- `fix_job_period_key` from `src/app.py` lines 21-32. -/
def fix_job_period_key (x : PyVal) : PyVal :=
  match x with
  | PyVal.list l => PyVal.list (l.map fixItem)
  | _ => x

/-- Inner `get_period` of `pick_current_experience` (`src/app.py` lines 44-47). -/
def get_period (e : PyVal) : String :=
  match e with
  | PyVal.dict d => pyStr (pyOr (dGet d "job_time_period") (pyOr (dGet d "job_period") (PyVal.str "")))
  | _ => ""

/-- The loop test `"present" in get_period(e).lower()`. -/
def hasPresent (e : PyVal) : Bool :=
  subIn "present".data (lowerList (get_period e).data)

def pickLoop : List PyVal → Option PyVal
  | [] => Option.none
  | e :: es => if hasPresent e then some e else pickLoop es

/-- `pick_current_experience` from `src/app.py` lines 35-54. -/
def pick_current_experience (x : PyVal) : PyVal :=
  match x with
  | PyVal.list [] => PyVal.none
  | PyVal.list (e :: es) =>
      match pickLoop (e :: es) with
      | some r => r
      | Option.none => e
  | _ => PyVal.none

/-- One iteration test of the `years2_invalid` loop: the token, once
stripped, is non-blank and occurs case-insensitively in the text. -/
def invTok (s : List Char) (y : String) : Bool :=
  !(stripChars y.data).isEmpty && subIn (lowerList (stripChars y.data)) (lowerList s)

def years2Loop (s : List Char) : List String → String
  | [] => "Valid"
  | y :: ys =>
      if (stripChars y.data).isEmpty then years2Loop s ys
      else if subIn (lowerList (stripChars y.data)) (lowerList s) then "Invalid"
      else years2Loop s ys

/-- `years2_invalid` from `src/app.py` lines 57-74. -/
def years2_invalid (period_text : PyVal) (years_list : List String) : String :=
  match period_text with
  | PyVal.none => ""
  | x =>
      if (stripChars (pyStr x).data).isEmpty then ""
      else years2Loop (stripChars (pyStr x).data) years_list

/-- Indel (insertion/deletion only) edit distance, the metric underlying
`rapidfuzz.fuzz.ratio`. -/
def indelDist : List Char → List Char → Nat
  | [], ys => ys.length
  | x :: xs, [] => (x :: xs).length
  | x :: xs, y :: ys =>
      if x == y then indelDist xs ys
      else 1 + min (indelDist (x :: xs) ys) (indelDist xs (y :: ys))
termination_by xs ys => xs.length + ys.length
decreasing_by all_goals simp_arith

/-- Model of `rapidfuzz.fuzz.ratio`: normalized indel similarity scaled to
the range 0..100 (100 for two empty strings, as the library returns). -/
def fuzzSim (a b : String) : ℚ :=
  if a.data.length + b.data.length = 0 then 100
  else 100 * (1 - (indelDist a.data b.data : ℚ) / (a.data.length + b.data.length))

/-- The similarity lambda of `src/app.py` lines 136-141, applied to the two
cell values read from a row. -/
def simLambda (a b : PyVal) : PyVal :=
  if !(stripChars (pyStr a).data).isEmpty && !(stripChars (pyStr b).data).isEmpty then
    PyVal.rat (fuzzSim (pyStr a) (pyStr b) / 100)
  else PyVal.str ""

/-!
Table model: a pandas DataFrame as its columns in left-to-right order,
each column a name with its cell values top to bottom.
-/

abbrev Table := List (String × List PyVal)

/-- `df[name]` as a read: the first column with that label, if any.  A
missing label is pandas `KeyError`. -/
def getCol? (df : Table) (name : String) : Option (List PyVal) :=
  (df.find? (fun c => c.1 == name)).map Prod.snd

/-- `df[name] = col`: overwrite in place when the label exists, else
append the new column on the right. -/
def setCol (df : Table) (name : String) (col : List PyVal) : Table :=
  if df.any (fun c => c.1 == name) then
    df.map (fun c => if c.1 == name then (name, col) else c)
  else df ++ [(name, col)]

/-- Row count of a well-formed table (all columns share one length). -/
def nRows : Table → Nat
  | [] => 0
  | c :: _ => c.2.length

/-- The four per-row extractions of `src/app.py` lines 113-122 (period,
company, title, company URL of the chosen current experience). -/
def extract4 (cur : PyVal) : PyVal × PyVal × PyVal × PyVal :=
  match cur with
  | PyVal.dict d =>
      (pyOr (dGet d "job_time_period") (pyOr (dGet d "job_period") (PyVal.str "")),
       pyOr (dGet d "company_name") (PyVal.str ""),
       pyOr (dGet d "title") (pyOr (dGet d "job_title") (PyVal.str "")),
       pyOr (dGet d "linkedin_company_url") (pyOr (dGet d "linkedin_company_url_cleaned") (PyVal.str "")))
  | _ => (PyVal.str "", PyVal.str "", PyVal.str "", PyVal.str "")

/-- Steps of `src/app.py` lines 103-141 once `df["experiences"]` has been
read and `safe_json_loads` applied to each of its cells without raising;
`parsed` is the resulting column.  Reads of columns assigned just before
always succeed; their `Option.getD []` default is never taken. -/
def pipelineBody (ys : List String) (df : Table)
    (parsed : List PyVal) : Table :=
  let df1 := setCol df "experiences_json" parsed
  let ej1 := (getCol? df1 "experiences_json").getD []
  let df2 := setCol df1 "experiences_json" (ej1.map fix_job_period_key)
  let ej2 := (getCol? df2 "experiences_json").getD []
  let fields := ej2.map (fun exps => extract4 (pick_current_experience exps))
  let df3 := setCol df2 "current_job_time_period" (fields.map (fun f => f.1))
  let df4 := setCol df3 "current_company_name_from_exp" (fields.map (fun f => f.2.1))
  let df5 := setCol df4 "current_job_title_from_exp" (fields.map (fun f => f.2.2.1))
  let df6 := setCol df5 "current_linkedin_company_url_from_exp" (fields.map (fun f => f.2.2.2))
  let periodCol := (getCol? df6 "current_job_time_period").getD []
  let df7 := setCol df6 "current_job_time_period_validity"
      (periodCol.map (fun s => PyVal.str (years2_invalid s ys)))
  let n := nRows df7
  let colA := (getCol? df7 "company_name").getD (List.replicate n (PyVal.str ""))
  let colB := (getCol? df7 "current_company_name_from_exp").getD (List.replicate n (PyVal.str ""))
  setCol df7 "company_name_similarity_to_exp" (List.zipWith simLambda colA colB)

/-- The module-level pipeline of `src/app.py` lines 98-141.  The fallible
steps are the read `df["experiences"]` on line 102 — a missing label
raises `KeyError` — and the per-cell `apply(safe_json_loads)` on the same
line, which propagates the `ValueError` that a multi-cell sequence cell
provokes; either error aborts the run. -/
def pipeline (dec : String → Option PyVal) (ys : List String) (df : Table) :
    Except String Table :=
  match getCol? df "experiences" with
  | Option.none => Except.error "KeyError: experiences"
  | some exCol =>
      match applyCol (safe_json_loads dec) exCol with
      | Except.error e => Except.error e
      | Except.ok parsed => Except.ok (pipelineBody ys df parsed)

/-- The seven derived column labels, in assignment order. -/
def derivedNames : List String :=
  ["experiences_json", "current_job_time_period", "current_company_name_from_exp",
   "current_job_title_from_exp", "current_linkedin_company_url_from_exp",
   "current_job_time_period_validity", "company_name_similarity_to_exp"]

/-- Final content of the `experiences_json` column, from the successfully
parsed experiences column. -/
def ejFinal (parsed : List PyVal) : List PyVal :=
  parsed.map fix_job_period_key

def fieldsOf (parsed : List PyVal) :
    List (PyVal × PyVal × PyVal × PyVal) :=
  (ejFinal parsed).map (fun exps => extract4 (pick_current_experience exps))

def colP (parsed : List PyVal) : List PyVal :=
  (fieldsOf parsed).map (fun f => f.1)

def colC (parsed : List PyVal) : List PyVal :=
  (fieldsOf parsed).map (fun f => f.2.1)

def colT (parsed : List PyVal) : List PyVal :=
  (fieldsOf parsed).map (fun f => f.2.2.1)

def colU (parsed : List PyVal) : List PyVal :=
  (fieldsOf parsed).map (fun f => f.2.2.2)

def colV (ys : List String) (parsed : List PyVal) : List PyVal :=
  (colP parsed).map (fun s => PyVal.str (years2_invalid s ys))

def colS (df : Table) (parsed : List PyVal) : List PyVal :=
  List.zipWith simLambda
    ((getCol? df "company_name").getD (List.replicate (nRows df) (PyVal.str "")))
    (colC parsed)

/-- The seven appended columns of a successful run. -/
def derivedOf (ys : List String) (df : Table)
    (parsed : List PyVal) : Table :=
  [("experiences_json", ejFinal parsed),
   ("current_job_time_period", colP parsed),
   ("current_company_name_from_exp", colC parsed),
   ("current_job_title_from_exp", colT parsed),
   ("current_linkedin_company_url_from_exp", colU parsed),
   ("current_job_time_period_validity", colV ys parsed),
   ("company_name_similarity_to_exp", colS df parsed)]

/-- No column of `df` carries the label `name`. -/
def freshIn (df : Table) (name : String) : Prop := ∀ c ∈ df, c.1 ≠ name

/-- A concrete decoder for closed evaluations: every decode fails (as
`json.loads` does on non-JSON text).  The runs evaluated with it below
only ever feed the decoder nothing (NaN cells) or non-JSON text. -/
def decNone : String → Option PyVal := fun _ => Option.none

/-- Underlying list of a `PyVal.list`, `[]` otherwise. -/
def asList : PyVal → List PyVal
  | PyVal.list l => l
  | _ => []

/-- Underlying entries of a `PyVal.dict`, `[]` otherwise. -/
def asDict : PyVal → List (String × PyVal)
  | PyVal.dict d => d
  | _ => []

/-- Underlying rational of a `PyVal.rat`, `0` otherwise. -/
def ratOf : PyVal → ℚ
  | PyVal.rat q => q
  | _ => 0

/-- Input table whose `experiences_json` column collides with a derived
label (one row; the `experiences` cell is NaN, as pandas yields for an
empty CSV cell). -/
def dfKeep : Table :=
  [("experiences", [PyVal.nan]), ("experiences_json", [PyVal.str "KEEP"])]

/-- One-row, one-column input table with no `experiences` column. -/
def dfNoExp : Table := [("company_name", [PyVal.str "Acme"])]

/-- One-row input table with only an `experiences` column (NaN cell). -/
def dfOnlyExp : Table := [("experiences", [PyVal.nan])]

/-- Some token of `ts` is non-blank after trimming and occurs
case-insensitively as a substring of the character list `s`. -/
def tokHit (ts : List String) (s : List Char) : Prop :=
  ∃ y ∈ ts, stripChars y.data ≠ [] ∧
    subIn (lowerList (stripChars y.data)) (lowerList s) = true

theorem getCol?_cons_self (name : String) (col : List PyVal) (rest : Table) :
    getCol? ((name, col) :: rest) name = some col := by
  unfold getCol?
  rw [List.find?_cons_of_pos _ (by simp)]
  rfl

theorem getCol?_cons_ne (c : String × List PyVal) (rest : Table) (name : String)
    (h : c.1 ≠ name) : getCol? (c :: rest) name = getCol? rest name := by
  unfold getCol?
  rw [List.find?_cons_of_neg _ (by simp [h])]

theorem getCol?_fresh_none (rest : Table) (name : String) (h : freshIn rest name) :
    getCol? rest name = Option.none := by
  induction rest with
  | nil => rfl
  | cons c cs ih =>
      rw [getCol?_cons_ne c cs name (h c (by simp))]
      exact ih (fun c' hc' => h c' (by simp [hc']))

theorem find?_none_of_fresh (df : Table) (name : String) (h : freshIn df name) :
    df.find? (fun c => c.1 == name) = Option.none := by
  have h2 := getCol?_fresh_none df name h
  unfold getCol? at h2
  cases hf : df.find? (fun c => c.1 == name) with
  | none => rfl
  | some c => rw [hf] at h2; simp at h2

theorem getCol?_append_fresh (df rest : Table) (name : String) (h : freshIn df name) :
    getCol? (df ++ rest) name = getCol? rest name := by
  unfold getCol?
  rw [List.find?_append, find?_none_of_fresh df name h, Option.none_or]

theorem getCol?_append_left (df rest : Table) (name : String)
    (h : freshIn rest name) : getCol? (df ++ rest) name = getCol? df name := by
  unfold getCol?
  rw [List.find?_append, find?_none_of_fresh rest name h, Option.or_none]

theorem setCol_fresh (df : Table) (name : String) (col : List PyVal)
    (h : freshIn df name) : setCol df name col = df ++ [(name, col)] := by
  have hany : df.any (fun c => c.1 == name) = false := by
    simp only [List.any_eq_false]
    intro c hc
    simp only [beq_iff_eq]
    exact h c hc
  unfold setCol
  rw [hany]
  rfl

theorem setCol_append_last (df : Table) (name : String) (c c2 : List PyVal)
    (h : freshIn df name) :
    setCol (df ++ [(name, c)]) name c2 = df ++ [(name, c2)] := by
  have hany : (df ++ [(name, c)]).any (fun x => x.1 == name) = true := by simp
  unfold setCol
  rw [hany]
  simp only [if_true, List.map_append]
  congr 1
  · have hmap : df.map (fun x => if x.1 == name then (name, c2) else x) = df.map id := by
      apply List.map_congr_left
      intro a ha
      simp only [id]
      rw [if_neg (by simp [h a ha])]
    rw [hmap, List.map_id]
  · simp

theorem nRows_append (df L : Table) (h : df ≠ []) : nRows (df ++ L) = nRows df := by
  cases df with
  | nil => exact absurd rfl h
  | cons c cs => rfl

theorem mem_of_getCol? (df : Table) (name : String) (col : List PyVal)
    (h : getCol? df name = some col) : (name, col) ∈ df := by
  unfold getCol? at h
  cases hf : df.find? (fun c => c.1 == name) with
  | none => rw [hf] at h; simp at h
  | some c =>
      rw [hf] at h
      simp only [Option.map_some', Option.some.injEq] at h
      have hp := List.find?_some hf
      simp only [beq_iff_eq] at hp
      have hm := List.mem_of_find?_eq_some hf
      have : c = (name, col) := by
        cases c
        simp_all
      exact this ▸ hm

theorem getCol?_ne_nil (df : Table) (name : String) (col : List PyVal)
    (h : getCol? df name = some col) : df ≠ [] := by
  intro hd
  subst hd
  simp [getCol?] at h

theorem zipWith_replicate_left {α β γ : Type} (f : α → β → γ) (a : α)
    (l : List β) (n : Nat) (h : l.length = n) :
    List.zipWith f (List.replicate n a) l = l.map (f a) := by
  induction l generalizing n with
  | nil => subst h; rfl
  | cons x xs ih =>
      subst h
      simp only [List.length_cons, List.replicate_succ, List.zipWith_cons_cons, List.map_cons]
      rw [ih xs.length rfl]

theorem freshIn_nil (name : String) : freshIn [] name := by
  intro c hc
  simp at hc

theorem freshIn_cons (a : String) (col : List PyVal) (rest : Table) (name : String)
    (h1 : a ≠ name) (h2 : freshIn rest name) : freshIn ((a, col) :: rest) name := by
  intro c hc
  rcases List.mem_cons.mp hc with h | h
  · subst h; exact h1
  · exact h2 c h

theorem freshIn_append (df L : Table) (name : String)
    (h1 : freshIn df name) (h2 : freshIn L name) : freshIn (df ++ L) name := by
  intro c hc
  rcases List.mem_append.mp hc with h | h
  · exact h1 c h
  · exact h2 c h

theorem freshIn_derived (df : Table) (hf : ∀ c ∈ df, c.1 ∉ derivedNames)
    (name : String) (hn : name ∈ derivedNames) : freshIn df name :=
  fun c hc heq => hf c hc (heq ▸ hn)

theorem skipEJ_P (col : List PyVal) (rest : Table) :
    getCol? (("experiences_json", col) :: rest) "current_job_time_period" =
      getCol? rest "current_job_time_period" := by
  apply getCol?_cons_ne
  show "experiences_json" ≠ "current_job_time_period"
  decide

theorem skipEJ_C (col : List PyVal) (rest : Table) :
    getCol? (("experiences_json", col) :: rest) "current_company_name_from_exp" =
      getCol? rest "current_company_name_from_exp" := by
  apply getCol?_cons_ne
  show "experiences_json" ≠ "current_company_name_from_exp"
  decide

theorem skipP_C (col : List PyVal) (rest : Table) :
    getCol? (("current_job_time_period", col) :: rest) "current_company_name_from_exp" =
      getCol? rest "current_company_name_from_exp" := by
  apply getCol?_cons_ne
  show "current_job_time_period" ≠ "current_company_name_from_exp"
  decide

theorem freshL1 (X1 : List PyVal) :
    freshIn [("experiences_json", X1)] "current_job_time_period" :=
  freshIn_cons _ _ _ _ (by decide) (freshIn_nil _)

theorem freshL2 (X1 X2 : List PyVal) :
    freshIn [("experiences_json", X1), ("current_job_time_period", X2)]
      "current_company_name_from_exp" :=
  freshIn_cons _ _ _ _ (by decide) (freshIn_cons _ _ _ _ (by decide) (freshIn_nil _))

theorem freshL3 (X1 X2 X3 : List PyVal) :
    freshIn [("experiences_json", X1), ("current_job_time_period", X2),
      ("current_company_name_from_exp", X3)] "current_job_title_from_exp" :=
  freshIn_cons _ _ _ _ (by decide) (freshIn_cons _ _ _ _ (by decide)
    (freshIn_cons _ _ _ _ (by decide) (freshIn_nil _)))

theorem freshL4 (X1 X2 X3 X4 : List PyVal) :
    freshIn [("experiences_json", X1), ("current_job_time_period", X2),
      ("current_company_name_from_exp", X3), ("current_job_title_from_exp", X4)]
      "current_linkedin_company_url_from_exp" :=
  freshIn_cons _ _ _ _ (by decide) (freshIn_cons _ _ _ _ (by decide)
    (freshIn_cons _ _ _ _ (by decide) (freshIn_cons _ _ _ _ (by decide) (freshIn_nil _))))

theorem freshL5 (X1 X2 X3 X4 X5 : List PyVal) :
    freshIn [("experiences_json", X1), ("current_job_time_period", X2),
      ("current_company_name_from_exp", X3), ("current_job_title_from_exp", X4),
      ("current_linkedin_company_url_from_exp", X5)] "current_job_time_period_validity" :=
  freshIn_cons _ _ _ _ (by decide) (freshIn_cons _ _ _ _ (by decide)
    (freshIn_cons _ _ _ _ (by decide) (freshIn_cons _ _ _ _ (by decide)
      (freshIn_cons _ _ _ _ (by decide) (freshIn_nil _)))))

theorem freshL6sim (X1 X2 X3 X4 X5 X6 : List PyVal) :
    freshIn [("experiences_json", X1), ("current_job_time_period", X2),
      ("current_company_name_from_exp", X3), ("current_job_title_from_exp", X4),
      ("current_linkedin_company_url_from_exp", X5),
      ("current_job_time_period_validity", X6)] "company_name_similarity_to_exp" :=
  freshIn_cons _ _ _ _ (by decide) (freshIn_cons _ _ _ _ (by decide)
    (freshIn_cons _ _ _ _ (by decide) (freshIn_cons _ _ _ _ (by decide)
      (freshIn_cons _ _ _ _ (by decide) (freshIn_cons _ _ _ _ (by decide) (freshIn_nil _))))))

theorem freshL6cn (X1 X2 X3 X4 X5 X6 : List PyVal) :
    freshIn [("experiences_json", X1), ("current_job_time_period", X2),
      ("current_company_name_from_exp", X3), ("current_job_title_from_exp", X4),
      ("current_linkedin_company_url_from_exp", X5),
      ("current_job_time_period_validity", X6)] "company_name" :=
  freshIn_cons _ _ _ _ (by decide) (freshIn_cons _ _ _ _ (by decide)
    (freshIn_cons _ _ _ _ (by decide) (freshIn_cons _ _ _ _ (by decide)
      (freshIn_cons _ _ _ _ (by decide) (freshIn_cons _ _ _ _ (by decide) (freshIn_nil _))))))

/-- A successful run appends exactly the seven derived columns to the
unchanged input table, provided none of the derived labels is already a
column of the input. -/
theorem pipelineBody_eq (ys : List String) (df : Table)
    (parsed : List PyVal)
    (hne : df ≠ [])
    (hf : ∀ c ∈ df, c.1 ∉ derivedNames) :
    pipelineBody ys df parsed = df ++ derivedOf ys df parsed := by
  have fEJ : freshIn df "experiences_json" :=
    freshIn_derived df hf _ (by simp [derivedNames])
  have fP : freshIn df "current_job_time_period" :=
    freshIn_derived df hf _ (by simp [derivedNames])
  have fC : freshIn df "current_company_name_from_exp" :=
    freshIn_derived df hf _ (by simp [derivedNames])
  have fT : freshIn df "current_job_title_from_exp" :=
    freshIn_derived df hf _ (by simp [derivedNames])
  have fU : freshIn df "current_linkedin_company_url_from_exp" :=
    freshIn_derived df hf _ (by simp [derivedNames])
  have fV : freshIn df "current_job_time_period_validity" :=
    freshIn_derived df hf _ (by simp [derivedNames])
  have fS : freshIn df "company_name_similarity_to_exp" :=
    freshIn_derived df hf _ (by simp [derivedNames])
  simp only [pipelineBody]
  rw [setCol_fresh _ _ _ fEJ]
  rw [getCol?_append_fresh _ _ _ fEJ]
  simp only [getCol?_cons_self, Option.getD_some]
  rw [setCol_append_last _ _ _ _ fEJ]
  rw [getCol?_append_fresh _ _ _ fEJ]
  simp only [getCol?_cons_self, Option.getD_some]
  rw [setCol_fresh _ _ _ (freshIn_append _ _ _ fP (freshL1 _))]
  simp only [List.append_assoc, List.cons_append, List.nil_append]
  rw [setCol_fresh _ _ _ (freshIn_append _ _ _ fC (freshL2 _ _))]
  simp only [List.append_assoc, List.cons_append, List.nil_append]
  rw [setCol_fresh _ _ _ (freshIn_append _ _ _ fT (freshL3 _ _ _))]
  simp only [List.append_assoc, List.cons_append, List.nil_append]
  rw [setCol_fresh _ _ _ (freshIn_append _ _ _ fU (freshL4 _ _ _ _))]
  simp only [List.append_assoc, List.cons_append, List.nil_append]
  rw [getCol?_append_fresh _ _ _ fP]
  simp only [skipEJ_P, getCol?_cons_self, Option.getD_some]
  rw [setCol_fresh _ _ _ (freshIn_append _ _ _ fV (freshL5 _ _ _ _ _))]
  simp only [List.append_assoc, List.cons_append, List.nil_append]
  rw [nRows_append _ _ hne]
  rw [getCol?_append_left _ _ _ (freshL6cn _ _ _ _ _ _)]
  rw [getCol?_append_fresh _ _ _ fC]
  simp only [skipEJ_C, skipP_C, getCol?_cons_self, Option.getD_some]
  rw [setCol_fresh _ _ _ (freshIn_append _ _ _ fS (freshL6sim _ _ _ _ _ _))]
  simp only [List.append_assoc, List.cons_append, List.nil_append]
  simp only [derivedOf, colS, colV, colU, colT, colC, colP, fieldsOf, ejFinal]

theorem pipeline_ok (dec : String → Option PyVal) (ys : List String) (df : Table)
    (exCol parsed : List PyVal)
    (hex : getCol? df "experiences" = some exCol)
    (happly : applyCol (safe_json_loads dec) exCol = Except.ok parsed)
    (hf : ∀ c ∈ df, c.1 ∉ derivedNames) :
    pipeline dec ys df = Except.ok (df ++ derivedOf ys df parsed) := by
  have hne : df ≠ [] := getCol?_ne_nil df "experiences" exCol hex
  unfold pipeline
  rw [hex]
  show (match applyCol (safe_json_loads dec) exCol with
        | Except.error e => Except.error e
        | Except.ok parsed => Except.ok (pipelineBody ys df parsed)) =
    Except.ok (df ++ derivedOf ys df parsed)
  rw [happly]
  exact congrArg Except.ok (pipelineBody_eq ys df parsed hne hf)

theorem applyCol_length (f : PyVal → Except String PyVal) (l w : List PyVal)
    (h : applyCol f l = Except.ok w) : w.length = l.length := by
  induction l generalizing w with
  | nil =>
      simp only [applyCol] at h
      cases h
      rfl
  | cons v vs ih =>
      simp only [applyCol] at h
      cases hv : f v with
      | error e => rw [hv] at h; cases h
      | ok u =>
          rw [hv] at h
          cases hrest : applyCol f vs with
          | error e => rw [hrest] at h; cases h
          | ok ws =>
              rw [hrest] at h
              cases h
              simp [ih ws hrest]

theorem pipeline_err (dec : String → Option PyVal) (ys : List String) (df : Table)
    (h : getCol? df "experiences" = Option.none) :
    pipeline dec ys df = Except.error "KeyError: experiences" := by
  unfold pipeline
  rw [h]

theorem nRows_eq (df : Table) (n : Nat) (h : df ≠ [])
    (hwf : ∀ c ∈ df, c.2.length = n) : nRows df = n := by
  cases df with
  | nil => exact absurd rfl h
  | cons c cs => exact hwf c (by simp)

theorem getCol?_length (df : Table) (name : String) (col : List PyVal) (n : Nat)
    (h : getCol? df name = some col) (hwf : ∀ c ∈ df, c.2.length = n) :
    col.length = n :=
  hwf (name, col) (mem_of_getCol? df name col h)

theorem ejFinal_length (parsed : List PyVal) :
    (ejFinal parsed).length = parsed.length := by
  simp [ejFinal]

theorem colP_length (parsed : List PyVal) :
    (colP parsed).length = parsed.length := by
  simp [colP, fieldsOf, ejFinal]

theorem colC_length (parsed : List PyVal) :
    (colC parsed).length = parsed.length := by
  simp [colC, fieldsOf, ejFinal]

theorem colT_length (parsed : List PyVal) :
    (colT parsed).length = parsed.length := by
  simp [colT, fieldsOf, ejFinal]

theorem colU_length (parsed : List PyVal) :
    (colU parsed).length = parsed.length := by
  simp [colU, fieldsOf, ejFinal]

theorem colV_length (ys : List String) (parsed : List PyVal) :
    (colV ys parsed).length = parsed.length := by
  simp [colV, colP, fieldsOf, ejFinal]

theorem colS_length (df : Table) (parsed : List PyVal)
    (n : Nat) (hne : df ≠ []) (hplen : parsed.length = n)
    (hwf : ∀ c ∈ df, c.2.length = n) :
    (colS df parsed).length = n := by
  unfold colS
  rw [List.length_zipWith, colC_length, hplen]
  cases hcn : getCol? df "company_name" with
  | none =>
      simp [nRows_eq df n hne hwf]
  | some c =>
      have : c.length = n := getCol?_length df "company_name" c n hcn hwf
      simp [this]

theorem any_perm {α : Type} (p : α → Bool) (l1 l2 : List α) (h : l1.Perm l2) :
    l1.any p = l2.any p := by
  cases h1 : l1.any p with
  | true =>
      rw [List.any_eq_true] at h1
      rcases h1 with ⟨a, ha, hp⟩
      exact (List.any_eq_true.mpr ⟨a, h.mem_iff.mp ha, hp⟩).symm
  | false =>
      rw [List.any_eq_false] at h1
      cases h2 : l2.any p with
      | true =>
          rw [List.any_eq_true] at h2
          rcases h2 with ⟨a, ha, hp⟩
          exact absurd hp (h1 a (h.mem_iff.mpr ha))
      | false => rfl

theorem years2Loop_eq (s : List Char) (ys : List String) :
    years2Loop s ys = if ys.any (invTok s) then "Invalid" else "Valid" := by
  induction ys with
  | nil => rfl
  | cons y ys ih =>
      unfold years2Loop
      by_cases h1 : (stripChars y.data).isEmpty = true
      · rw [if_pos h1, ih]
        have : invTok s y = false := by simp [invTok, h1]
        simp [this]
      · rw [if_neg h1]
        by_cases h2 : subIn (lowerList (stripChars y.data)) (lowerList s) = true
        · rw [if_pos h2]
          have : invTok s y = true := by
            simp [invTok, h2]
            simpa using h1
          simp [this]
        · rw [if_neg h2, ih]
          have : invTok s y = false := by
            simp [invTok]
            intro
            simpa using h2
          simp [this]

theorem years2_invalid_eq (x : PyVal) (ts : List String) (hx : x ≠ PyVal.none) :
    years2_invalid x ts =
      if (stripChars (pyStr x).data).isEmpty then ""
      else years2Loop (stripChars (pyStr x).data) ts := by
  cases x with
  | none => exact absurd rfl hx
  | nan => rfl
  | bool b => rfl
  | int n => rfl
  | rat q => rfl
  | str s => rfl
  | list l => rfl
  | dict d => rfl

theorem dictHasKey_iff_isSome (k : String) (d : List (String × PyVal)) :
    dictHasKey k d = (dictGet? k d).isSome := by
  induction d with
  | nil => rfl
  | cons p ps ih =>
      unfold dictHasKey dictGet?
      cases h : (p.1 == k) with
      | true => simp [h]
      | false => simp [h, ih]

theorem dictGet?_eq_getD (k : String) (d : List (String × PyVal))
    (h : dictHasKey k d = true) :
    dictGet? k d = some ((dictGet? k d).getD PyVal.none) := by
  rw [dictHasKey_iff_isSome] at h
  cases hg : dictGet? k d with
  | none => rw [hg] at h; simp at h
  | some v => rfl

theorem dictGet?_set_self (k : String) (v : PyVal) (d : List (String × PyVal)) :
    dictGet? k (dictSet k v d) = some v := by
  induction d with
  | nil => simp [dictSet, dictGet?]
  | cons p ps ih =>
      unfold dictSet
      cases h : (p.1 == k) with
      | true => simp [dictGet?]
      | false => simp [dictGet?, h, ih]

theorem dictHasKey_set_self (k : String) (v : PyVal) (d : List (String × PyVal)) :
    dictHasKey k (dictSet k v d) = true := by
  rw [dictHasKey_iff_isSome, dictGet?_set_self]
  rfl

theorem dictGet?_set_ne (j k : String) (v : PyVal) (d : List (String × PyVal))
    (h : j ≠ k) : dictGet? j (dictSet k v d) = dictGet? j d := by
  induction d with
  | nil =>
      have : (k == j) = false := by simp [Ne.symm h]
      simp [dictSet, dictGet?, this]
  | cons p ps ih =>
      unfold dictSet
      cases hp : (p.1 == k) with
      | true =>
          have hpk : p.1 = k := by simpa using hp
          have h1 : (k == j) = false := by simp [Ne.symm h]
          have h2 : (p.1 == j) = false := by rw [hpk]; simp [Ne.symm h]
          simp [dictGet?, h1, h2]
      | false => simp [dictGet?, ih]

theorem dictHasKey_set_ne (j k : String) (v : PyVal) (d : List (String × PyVal))
    (h : j ≠ k) : dictHasKey j (dictSet k v d) = dictHasKey j d := by
  rw [dictHasKey_iff_isSome, dictHasKey_iff_isSome, dictGet?_set_ne j k v d h]

theorem dictGet?_pop_ne (j k : String) (d : List (String × PyVal))
    (h : j ≠ k) : dictGet? j (dictPop k d) = dictGet? j d := by
  induction d with
  | nil => rfl
  | cons p ps ih =>
      unfold dictPop
      cases hp : (p.1 == k) with
      | true =>
          have hpk : p.1 = k := by simpa using hp
          have h2 : (p.1 == j) = false := by rw [hpk]; simp [Ne.symm h]
          simp [dictGet?, h2]
      | false => simp [dictGet?, ih]

theorem dictHasKey_false_of_not_mem (k : String) (d : List (String × PyVal))
    (h : k ∉ d.map Prod.fst) : dictHasKey k d = false := by
  induction d with
  | nil => rfl
  | cons p ps ih =>
      simp only [List.map_cons, List.mem_cons, not_or] at h
      unfold dictHasKey
      have h1 : (p.1 == k) = false := by simp [Ne.symm h.1]
      simp [h1, ih h.2]

theorem dictHasKey_pop_self (k : String) (d : List (String × PyVal))
    (hnd : (d.map Prod.fst).Nodup) : dictHasKey k (dictPop k d) = false := by
  induction d with
  | nil => rfl
  | cons p ps ih =>
      simp only [List.map_cons, List.nodup_cons] at hnd
      unfold dictPop
      cases hp : (p.1 == k) with
      | true =>
          have hpk : p.1 = k := by simpa using hp
          simp only [if_true]
          exact dictHasKey_false_of_not_mem k ps (hpk ▸ hnd.1)
      | false =>
          simp only [Bool.false_eq_true, if_false]
          unfold dictHasKey
          simp [hp, ih hnd.2]

theorem pickLoop_eq_find? (l : List PyVal) : pickLoop l = l.find? hasPresent := by
  induction l with
  | nil => rfl
  | cons e es ih =>
      unfold pickLoop
      rw [List.find?_cons]
      cases h : hasPresent e with
      | true => simp [h]
      | false => simp [h, ih]

/-- C3: `pick_current_experience` returns null for null, non-list or empty
input; on a non-empty list it returns the first entry (in original order)
whose period text — canonical `job_time_period`, else alias `job_period`,
else empty string — contains `"present"` case-insensitively, and the entry
at index 0 when no entry matches. -/
theorem c3_pick_current_experience_spec (x : PyVal) :
    pick_current_experience x =
      match x with
      | PyVal.list (e :: es) => ((e :: es).find? hasPresent).getD e
      | _ => PyVal.none := by
  cases x with
  | list l =>
      cases l with
      | nil => rfl
      | cons e es =>
          show (match pickLoop (e :: es) with
                | some r => r
                | Option.none => e) = ((e :: es).find? hasPresent).getD e
          rw [pickLoop_eq_find?]
          cases h : (e :: es).find? hasPresent with
          | none => rfl
          | some r => rfl
  | none => rfl
  | nan => rfl
  | bool b => rfl
  | int n => rfl
  | rat q => rfl
  | str s => rfl
  | dict d => rfl

/-- C8: a non-null result of `pick_current_experience` is always one of the
entries of the original input list. -/
theorem c8_pick_membership (x : PyVal) (h : pick_current_experience x ≠ PyVal.none) :
    x = PyVal.list (asList x) ∧ pick_current_experience x ∈ asList x := by
  cases x with
  | list l =>
      cases l with
      | nil => exact absurd rfl h
      | cons e es =>
          refine ⟨rfl, ?_⟩
          show (match pickLoop (e :: es) with
                | some r => r
                | Option.none => e) ∈ (e :: es)
          rw [pickLoop_eq_find?]
          cases hf : (e :: es).find? hasPresent with
          | none => simp
          | some r => simpa using List.mem_of_find?_eq_some hf
  | none => exact absurd rfl h
  | nan => exact absurd rfl h
  | bool b => exact absurd rfl h
  | int n => exact absurd rfl h
  | rat q => exact absurd rfl h
  | str s => exact absurd rfl h
  | dict d => exact absurd rfl h

/-- Witness for C8 at a concrete one-element list with no match: the
fallback entry is a member of the input list. -/
theorem c8_witness :
    PyVal.list [PyVal.str "w"] = PyVal.list (asList (PyVal.list [PyVal.str "w"]))
    ∧ pick_current_experience (PyVal.list [PyVal.str "w"]) ∈
        asList (PyVal.list [PyVal.str "w"]) :=
  c8_pick_membership (PyVal.list [PyVal.str "w"])
    (fun h => PyVal.noConfusion (show PyVal.str "w" = PyVal.none from h))

/-- C6: `fix_job_period_key` renames the alias `job_period` to canonical
`job_time_period` in a record exactly when the canonical key is absent and
the alias present; a record with the canonical key is left unchanged (its
canonical value never overwritten or dropped); non-mapping entries and
non-list input pass through unchanged. -/
theorem c6_fix_job_period_key_spec :
    (∀ x, (∀ l, x ≠ PyVal.list l) → fix_job_period_key x = x)
    ∧ (∀ l, fix_job_period_key (PyVal.list l) = PyVal.list (l.map fixItem))
    ∧ (∀ e, (∀ d, e ≠ PyVal.dict d) → fixItem e = e)
    ∧ (∀ d, dictHasKey "job_time_period" d = true → fixItem (PyVal.dict d) = PyVal.dict d)
    ∧ (∀ d, dictHasKey "job_period" d = false → fixItem (PyVal.dict d) = PyVal.dict d)
    ∧ (∀ d, (d.map Prod.fst).Nodup → dictHasKey "job_period" d = true →
        dictHasKey "job_time_period" d = false →
        fixItem (PyVal.dict d) = PyVal.dict (asDict (fixItem (PyVal.dict d)))
        ∧ dictGet? "job_time_period" (asDict (fixItem (PyVal.dict d))) =
            dictGet? "job_period" d
        ∧ dictHasKey "job_period" (asDict (fixItem (PyVal.dict d))) = false
        ∧ (∀ k, k ≠ "job_period" → k ≠ "job_time_period" →
            dictGet? k (asDict (fixItem (PyVal.dict d))) = dictGet? k d)) := by
  refine ⟨?_, ?_, ?_, ?_, ?_, ?_⟩
  · intro x hx
    cases x with
    | list l => exact absurd rfl (hx l)
    | none => rfl
    | nan => rfl
    | bool b => rfl
    | int n => rfl
    | rat q => rfl
    | str s => rfl
    | dict d => rfl
  · intro l; rfl
  · intro e he
    cases e with
    | dict d => exact absurd rfl (he d)
    | none => rfl
    | nan => rfl
    | bool b => rfl
    | int n => rfl
    | rat q => rfl
    | str s => rfl
    | list l => rfl
  · intro d h
    simp only [fixItem]
    rw [h]
    simp
  · intro d h
    simp only [fixItem]
    rw [h]
    simp
  · intro d hnd hjp hjtp
    have hfix : fixItem (PyVal.dict d) =
        PyVal.dict (dictSet "job_time_period" ((dictGet? "job_period" d).getD PyVal.none)
          (dictPop "job_period" d)) := by
      simp only [fixItem]
      rw [hjp, hjtp]
      rfl
    refine ⟨?_, ?_, ?_, ?_⟩
    · rw [hfix]
      rfl
    · rw [hfix]
      show dictGet? "job_time_period"
          (dictSet "job_time_period" ((dictGet? "job_period" d).getD PyVal.none)
            (dictPop "job_period" d)) = dictGet? "job_period" d
      rw [dictGet?_set_self]
      exact (dictGet?_eq_getD "job_period" d hjp).symm
    · rw [hfix]
      show dictHasKey "job_period"
          (dictSet "job_time_period" ((dictGet? "job_period" d).getD PyVal.none)
            (dictPop "job_period" d)) = false
      rw [dictHasKey_set_ne _ _ _ _ (by decide), dictHasKey_pop_self _ _ hnd]
    · intro k hk1 hk2
      rw [hfix]
      show dictGet? k
          (dictSet "job_time_period" ((dictGet? "job_period" d).getD PyVal.none)
            (dictPop "job_period" d)) = dictGet? k d
      rw [dictGet?_set_ne _ _ _ _ hk2, dictGet?_pop_ne _ _ _ hk1]

/-- Witness for C6: renaming a concrete one-entry record moves the alias
value to the canonical key. -/
theorem c6_witness :
    dictGet? "job_time_period"
        (asDict (fixItem (PyVal.dict [("job_period", PyVal.str "P1")]))) =
      some (PyVal.str "P1") := by
  have h := (c6_fix_job_period_key_spec.2.2.2.2.2
    [("job_period", PyVal.str "P1")] (by simp) rfl rfl).2.1
  exact h.trans rfl

/-- C9: `fix_job_period_key` is idempotent. -/
theorem c9_fix_job_period_key_idem (x : PyVal) :
    fix_job_period_key (fix_job_period_key x) = fix_job_period_key x := by
  have hitem : ∀ e, fixItem (fixItem e) = fixItem e := by
    intro e
    cases e with
    | dict d =>
        by_cases h : (dictHasKey "job_period" d && ! dictHasKey "job_time_period" d) = true
        · have hfix : fixItem (PyVal.dict d) =
              PyVal.dict (dictSet "job_time_period"
                ((dictGet? "job_period" d).getD PyVal.none) (dictPop "job_period" d)) := by
            simp only [fixItem]
            rw [if_pos h]
          rw [hfix]
          have hc : (dictHasKey "job_period"
              (dictSet "job_time_period" ((dictGet? "job_period" d).getD PyVal.none)
                (dictPop "job_period" d)) &&
              ! dictHasKey "job_time_period"
                (dictSet "job_time_period" ((dictGet? "job_period" d).getD PyVal.none)
                  (dictPop "job_period" d))) = false := by
            rw [dictHasKey_set_self]
            simp
          simp only [fixItem]
          rw [hc]
          rfl
        · have hfix : fixItem (PyVal.dict d) = PyVal.dict d := by
            simp only [fixItem]
            rw [if_neg h]
          rw [hfix, hfix]
    | none => rfl
    | nan => rfl
    | bool b => rfl
    | int n => rfl
    | rat q => rfl
    | str s => rfl
    | list l => rfl
  cases x with
  | list l =>
      simp only [fix_job_period_key]
      rw [List.map_map]
      exact congrArg PyVal.list (List.map_congr_left (fun e _ => hitem e))
  | none => rfl
  | nan => rfl
  | bool b => rfl
  | int n => rfl
  | rat q => rfl
  | str s => rfl
  | dict d => rfl

theorem any_invTok_iff (ts : List String) (s : List Char) :
    ts.any (invTok s) = true ↔ tokHit ts s := by
  rw [List.any_eq_true]
  constructor
  · rintro ⟨y, hy, hp⟩
    simp only [invTok, Bool.and_eq_true, Bool.not_eq_true', List.isEmpty_eq_false] at hp
    exact ⟨y, hy, hp.1, hp.2⟩
  · rintro ⟨y, hy, h1, h2⟩
    refine ⟨y, hy, ?_⟩
    simp only [invTok, Bool.and_eq_true, Bool.not_eq_true', List.isEmpty_eq_false]
    exact ⟨h1, h2⟩

/-- C2: `years2_invalid` always returns one of `""`, `"Valid"`, `"Invalid"`;
it returns `""` exactly for null input or input whose string form trims to
empty; otherwise it returns `"Invalid"` exactly when some token that is
non-blank after trimming occurs case-insensitively in the trimmed text
(blank tokens ignored) and `"Valid"` otherwise; the result is invariant
under permutation of the token list. -/
theorem c2_years2_invalid_spec (x : PyVal) (ts : List String) :
    (years2_invalid x ts = "" ∨ years2_invalid x ts = "Valid" ∨
      years2_invalid x ts = "Invalid")
    ∧ (years2_invalid x ts = "" ↔
        (x = PyVal.none ∨ stripChars (pyStr x).data = []))
    ∧ (x ≠ PyVal.none → stripChars (pyStr x).data ≠ [] →
        ((years2_invalid x ts = "Invalid" ↔ tokHit ts (stripChars (pyStr x).data))
         ∧ (years2_invalid x ts = "Valid" ↔ ¬ tokHit ts (stripChars (pyStr x).data))))
    ∧ (∀ ts2, ts.Perm ts2 → years2_invalid x ts2 = years2_invalid x ts) := by
  by_cases hx : x = PyVal.none
  · subst hx
    refine ⟨Or.inl rfl, by simp [years2_invalid], ?_, ?_⟩
    · intro h; exact absurd rfl h
    · intro ts2 hp; rfl
  · have he := years2_invalid_eq x ts hx
    by_cases hs : (stripChars (pyStr x).data).isEmpty = true
    · have hnil : stripChars (pyStr x).data = [] := List.isEmpty_iff.mp hs
      rw [he, if_pos hs]
      refine ⟨Or.inl rfl, ?_, ?_, ?_⟩
      · simp [hnil]
      · intro _ hne; exact absurd hnil hne
      · intro ts2 hp
        rw [years2_invalid_eq x ts2 hx, if_pos hs]
    · have hne : stripChars (pyStr x).data ≠ [] := by
        intro hn
        rw [hn] at hs
        exact hs rfl
      rw [he, if_neg hs, years2Loop_eq]
      by_cases hany : (ts.any (invTok (stripChars (pyStr x).data))) = true
      · rw [if_pos hany]
        refine ⟨Or.inr (Or.inr rfl), ?_, ?_, ?_⟩
        · exact iff_of_false (by decide) (by rintro (h | h); exacts [hx h, hne h])
        · intro _ _
          constructor
          · exact iff_of_true rfl ((any_invTok_iff ts _).mp hany)
          · exact iff_of_false (by decide)
              (fun hno => hno ((any_invTok_iff ts _).mp hany))
        · intro ts2 hp
          rw [years2_invalid_eq x ts2 hx, if_neg hs, years2Loop_eq,
            any_perm (invTok (stripChars (pyStr x).data)) ts2 ts hp.symm, if_pos hany]
      · rw [if_neg hany]
        refine ⟨Or.inr (Or.inl rfl), ?_, ?_, ?_⟩
        · exact iff_of_false (by decide) (by rintro (h | h); exacts [hx h, hne h])
        · intro _ _
          constructor
          · exact iff_of_false (by decide)
              (fun ht => hany ((any_invTok_iff ts _).mpr ht))
          · exact iff_of_true rfl (fun ht => hany ((any_invTok_iff ts _).mpr ht))
        · intro ts2 hp
          rw [years2_invalid_eq x ts2 hx, if_neg hs, years2Loop_eq,
            any_perm (invTok (stripChars (pyStr x).data)) ts2 ts hp.symm, if_neg hany]

/-- Witness for C2 at a concrete period text and token list: the token
`"2015"` occurs in `"Jan 2015 - Present"`, so the verdict is `"Invalid"`. -/
theorem c2_witness :
    years2_invalid (PyVal.str "Jan 2015 - Present") ["2015"] = "Invalid" :=
  (((c2_years2_invalid_spec (PyVal.str "Jan 2015 - Present") ["2015"]).2.2.1
    (fun h => PyVal.noConfusion h) (by decide)).1).mpr
    ⟨"2015", by decide, by decide, by decide⟩

/-- C10: `years2_invalid` classifies a non-null value through its string
form — the verdict on `x` equals the verdict on `str(x)` — and in
particular the integer `2015` with token list `["2015"]` is `"Invalid"`. -/
theorem c10_years2_invalid_stringify :
    (∀ (x : PyVal) (ts : List String), x ≠ PyVal.none →
      years2_invalid x ts = years2_invalid (PyVal.str (pyStr x)) ts)
    ∧ years2_invalid (PyVal.int 2015) ["2015"] = "Invalid" := by
  constructor
  · intro x ts hx
    cases x with
    | none => exact absurd rfl hx
    | nan => rfl
    | bool b => rfl
    | int n => rfl
    | rat q => rfl
    | str s => rfl
    | list l => rfl
    | dict d => rfl
  · rfl

/-- Witness for C10 at the integer `2015`. -/
theorem c10_witness :
    years2_invalid (PyVal.int 2015) ["2015"] =
      years2_invalid (PyVal.str (pyStr (PyVal.int 2015))) ["2015"] :=
  c10_years2_invalid_stringify.1 (PyVal.int 2015) ["2015"]
    (fun h => PyVal.noConfusion h)

/-- C4 (amended): `safe_json_loads` yields null on null/NaN/empty-string
input; passes a mapping through unchanged; decodes non-empty text,
yielding null whenever the decoder fails; yields null on other scalars
(the `TypeError` from `json.loads` is caught); a sequence input follows
the truth evaluation of the elementwise `pd.isna` array on line 11 —
pass-through when it is `False`, null when it is `True`, and a propagated
`ValueError` when the array has more than one cell, in particular for
every sequence of length at least two; an error arises only from sequence
inputs. -/
theorem c4_safe_json_loads_spec (dec : String → Option PyVal) (x : PyVal) :
    ((x = PyVal.none ∨ x = PyVal.nan ∨ x = PyVal.str "") →
        safe_json_loads dec x = Except.ok PyVal.none)
    ∧ (∀ d, x = PyVal.dict d → safe_json_loads dec x = Except.ok x)
    ∧ (∀ s, x = PyVal.str s → s ≠ "" →
        safe_json_loads dec x = Except.ok ((dec s).getD PyVal.none))
    ∧ (∀ b, x = PyVal.bool b → safe_json_loads dec x = Except.ok PyVal.none)
    ∧ (∀ n, x = PyVal.int n → safe_json_loads dec x = Except.ok PyVal.none)
    ∧ (∀ q, x = PyVal.rat q → safe_json_loads dec x = Except.ok PyVal.none)
    ∧ (∀ l, x = PyVal.list l →
        safe_json_loads dec x =
          match npIsnaTruth l with
          | Except.ok true => Except.ok PyVal.none
          | Except.ok false => Except.ok x
          | Except.error e => Except.error e)
    ∧ (∀ l, x = PyVal.list l → 2 ≤ l.length →
        safe_json_loads dec x = Except.error ambiguousTruthMsg)
    ∧ (∀ e, safe_json_loads dec x = Except.error e → ∃ l, x = PyVal.list l) := by
  refine ⟨?_, ?_, ?_, ?_, ?_, ?_, ?_, ?_, ?_⟩
  · rintro (h | h | h) <;> subst h <;> rfl
  · intro d hd
    subst hd
    rfl
  · intro s hs hsne
    subst hs
    have hs2 : eqEmptyStr (PyVal.str s) = false := by
      have hdata : s.data ≠ [] := fun hh => hsne (String.ext (hh.trans rfl))
      simp only [eqEmptyStr]
      simpa using hdata
    show (if false || eqEmptyStr (PyVal.str s) then Except.ok PyVal.none
          else match dec s with
               | some v => Except.ok v
               | Option.none => Except.ok PyVal.none) =
      Except.ok ((dec s).getD PyVal.none)
    rw [Bool.false_or, hs2]
    show (match dec s with
          | some v => Except.ok v
          | Option.none => Except.ok PyVal.none) = Except.ok ((dec s).getD PyVal.none)
    cases dec s with
    | none => rfl
    | some v => rfl
  · intro b hb
    subst hb
    rfl
  · intro n hn
    subst hn
    rfl
  · intro q hq
    subst hq
    rfl
  · intro l hl
    subst hl
    show (match npIsnaTruth l with
          | Except.error e => Except.error e
          | Except.ok b =>
              if b || eqEmptyStr (PyVal.list l) then Except.ok PyVal.none
              else Except.ok (PyVal.list l)) =
      match npIsnaTruth l with
      | Except.ok true => Except.ok PyVal.none
      | Except.ok false => Except.ok (PyVal.list l)
      | Except.error e => Except.error e
    cases npIsnaTruth l with
    | error e => rfl
    | ok b =>
        cases b with
        | true => rfl
        | false => rfl
  · intro l hl hlen
    subst hl
    match l, hlen with
    | a :: b :: t, _ => rfl
  · intro e he
    cases x with
    | list l => exact ⟨l, rfl⟩
    | none => exact Except.noConfusion he
    | nan => exact Except.noConfusion he
    | bool b => exact Except.noConfusion he
    | int n => exact Except.noConfusion he
    | rat q => exact Except.noConfusion he
    | dict d => exact Except.noConfusion he
    | str s =>
        by_cases hs : eqEmptyStr (PyVal.str s) = true
        · have hok : safe_json_loads dec (PyVal.str s) = Except.ok PyVal.none := by
            show (if false || eqEmptyStr (PyVal.str s) then Except.ok PyVal.none
                  else match dec s with
                       | some v => Except.ok v
                       | Option.none => Except.ok PyVal.none) = Except.ok PyVal.none
            rw [Bool.false_or, hs]
            rfl
          rw [hok] at he
          exact Except.noConfusion he
        · have hs2 : eqEmptyStr (PyVal.str s) = false := by
            cases h2 : eqEmptyStr (PyVal.str s)
            · rfl
            · exact absurd h2 hs
          have hok : safe_json_loads dec (PyVal.str s) =
              Except.ok ((dec s).getD PyVal.none) := by
            show (if false || eqEmptyStr (PyVal.str s) then Except.ok PyVal.none
                  else match dec s with
                       | some v => Except.ok v
                       | Option.none => Except.ok PyVal.none) =
              Except.ok ((dec s).getD PyVal.none)
            rw [Bool.false_or, hs2]
            show (match dec s with
                  | some v => Except.ok v
                  | Option.none => Except.ok PyVal.none) =
              Except.ok ((dec s).getD PyVal.none)
            cases dec s with
            | none => rfl
            | some v => rfl
          rw [hok] at he
          exact Except.noConfusion he

/-- Witness for C4: decoding non-JSON text fails and yields null, without
an error. -/
theorem c4_witness :
    safe_json_loads decNone (PyVal.str "not json") = Except.ok PyVal.none := by
  have h := (c4_safe_json_loads_spec decNone (PyVal.str "not json")).2.2.1
    "not json" rfl (by decide)
  exact h.trans rfl

/-- Counterexample to C4 as stated: a two-element sequence input makes
`safe_json_loads` raise — `pd.isna` returns a two-cell array whose truth
evaluation by the bare `or` on line 11, outside the `try`, raises
`ValueError` — instead of passing the sequence through or returning null. -/
theorem c4_counterexample :
    safe_json_loads decNone (PyVal.list [PyVal.int 1, PyVal.int 2]) =
      Except.error ambiguousTruthMsg
    ∧ ¬ safe_json_loads decNone (PyVal.list [PyVal.int 1, PyVal.int 2]) =
        Except.ok (PyVal.list [PyVal.int 1, PyVal.int 2]) := by
  refine ⟨rfl, ?_⟩
  intro h
  exact Except.noConfusion
    (show (Except.error ambiguousTruthMsg : Except String PyVal) =
        Except.ok (PyVal.list [PyVal.int 1, PyVal.int 2]) from h)

theorem indelDist_self (l : List Char) : indelDist l l = 0 := by
  induction l with
  | nil => simp [indelDist]
  | cons x xs ih => simp [indelDist, ih]

theorem indelDist_le_aux :
    ∀ (n : Nat) (xs ys : List Char), xs.length + ys.length ≤ n →
      indelDist xs ys ≤ xs.length + ys.length := by
  intro n
  induction n with
  | zero =>
      intro xs ys h
      cases xs with
      | nil => simp [indelDist]
      | cons x xs' => simp at h
  | succ n ih =>
      intro xs ys h
      cases xs with
      | nil => simp [indelDist]
      | cons x xs' =>
          cases ys with
          | nil => simp [indelDist]
          | cons y ys' =>
              simp only [indelDist]
              by_cases hxy : (x == y) = true
              · rw [if_pos hxy]
                have hrec := ih xs' ys' (by simp at h ⊢; omega)
                simp only [List.length_cons]
                omega
              · rw [if_neg hxy]
                have h1 := ih (x :: xs') ys' (by simp at h ⊢; omega)
                have h2 := ih xs' (y :: ys') (by simp at h ⊢; omega)
                have hm := Nat.min_le_left (indelDist (x :: xs') ys')
                  (indelDist xs' (y :: ys'))
                simp only [List.length_cons] at h1 h2 ⊢
                omega

theorem indelDist_le (xs ys : List Char) :
    indelDist xs ys ≤ xs.length + ys.length :=
  indelDist_le_aux (xs.length + ys.length) xs ys (Nat.le_refl _)

theorem stripChars_ne_nil (l : List Char) (h : stripChars l ≠ []) : l ≠ [] := by
  intro hl
  subst hl
  exact h rfl

/-- C7: the similarity lambda returns the empty-string sentinel when either
compared value is blank after trimming; otherwise it returns a rational in
the interval 0..1, and exactly 1 when the two values are identical. -/
theorem c7_simLambda_spec (a b : PyVal) :
    ((stripChars (pyStr a).data = [] ∨ stripChars (pyStr b).data = []) →
        simLambda a b = PyVal.str "")
    ∧ (stripChars (pyStr a).data ≠ [] → stripChars (pyStr b).data ≠ [] →
        simLambda a b = PyVal.rat (ratOf (simLambda a b))
        ∧ 0 ≤ ratOf (simLambda a b) ∧ ratOf (simLambda a b) ≤ 1)
    ∧ (a = b → stripChars (pyStr a).data ≠ [] → simLambda a b = PyVal.rat 1) := by
  have hmain : ∀ (u v : PyVal), stripChars (pyStr u).data ≠ [] →
      stripChars (pyStr v).data ≠ [] →
      simLambda u v = PyVal.rat (fuzzSim (pyStr u) (pyStr v) / 100) := by
    intro u v hu hv
    unfold simLambda
    have hcond : (!(stripChars (pyStr u).data).isEmpty &&
        !(stripChars (pyStr v).data).isEmpty) = true := by
      simp [List.isEmpty_eq_false, hu, hv]
    rw [hcond]
    rfl
  have hbounds : ∀ (u v : PyVal), stripChars (pyStr u).data ≠ [] →
      stripChars (pyStr v).data ≠ [] →
      0 ≤ fuzzSim (pyStr u) (pyStr v) / 100 ∧ fuzzSim (pyStr u) (pyStr v) / 100 ≤ 1 := by
    intro u v hu hv
    have hu' : (pyStr u).data ≠ [] := stripChars_ne_nil _ hu
    have hn : (pyStr u).data.length + (pyStr v).data.length ≠ 0 := by
      cases hud : (pyStr u).data with
      | nil => exact absurd hud hu'
      | cons c cs => simp
    have hnpos : (0 : ℚ) < ((pyStr u).data.length + (pyStr v).data.length : ℚ) := by
      have : 0 < (pyStr u).data.length + (pyStr v).data.length := Nat.pos_of_ne_zero hn
      exact_mod_cast this
    have hd : (indelDist (pyStr u).data (pyStr v).data : ℚ) ≤
        ((pyStr u).data.length + (pyStr v).data.length : ℚ) := by
      exact_mod_cast indelDist_le (pyStr u).data (pyStr v).data
    have hdpos : (0 : ℚ) ≤ (indelDist (pyStr u).data (pyStr v).data : ℚ) := by
      positivity
    unfold fuzzSim
    rw [if_neg hn]
    constructor
    · have hq : (indelDist (pyStr u).data (pyStr v).data : ℚ) /
          ((pyStr u).data.length + (pyStr v).data.length : ℚ) ≤ 1 := by
        rw [div_le_one hnpos]
        push_cast at hd
        linarith
      have : (0 : ℚ) ≤ 1 - (indelDist (pyStr u).data (pyStr v).data : ℚ) /
          ((pyStr u).data.length + (pyStr v).data.length : ℚ) := by linarith
      push_cast at this
      linarith
    · have hq : (0 : ℚ) ≤ (indelDist (pyStr u).data (pyStr v).data : ℚ) /
          ((pyStr u).data.length + (pyStr v).data.length : ℚ) :=
        div_nonneg hdpos (le_of_lt hnpos)
      push_cast at hq
      linarith
  refine ⟨?_, ?_, ?_⟩
  · intro h
    unfold simLambda
    rcases h with h | h
    · have : (stripChars (pyStr a).data).isEmpty = true := by simp [h]
      rw [this]
      rfl
    · have h2 : (stripChars (pyStr b).data).isEmpty = true := by simp [h]
      rw [h2]
      simp
  · intro ha hb
    rw [hmain a b ha hb]
    refine ⟨rfl, ?_, ?_⟩
    · exact (hbounds a b ha hb).1
    · exact (hbounds a b ha hb).2
  · intro hab ha
    subst hab
    rw [hmain a a ha ha]
    have hne : (pyStr a).data.length + (pyStr a).data.length ≠ 0 := by
      have : (pyStr a).data ≠ [] := stripChars_ne_nil _ ha
      cases hud : (pyStr a).data with
      | nil => exact absurd hud this
      | cons c cs => simp
    unfold fuzzSim
    rw [if_neg hne, indelDist_self]
    push_cast
    congr 1
    have hnpos : (0 : ℚ) < ((pyStr a).data.length + (pyStr a).data.length : ℚ) := by
      have : 0 < (pyStr a).data.length + (pyStr a).data.length := Nat.pos_of_ne_zero hne
      exact_mod_cast this
    field_simp

/-- Witness for C7: the score of a non-blank string against itself is 1. -/
theorem c7_witness : simLambda (PyVal.str "Acme") (PyVal.str "Acme") = PyVal.rat 1 :=
  (c7_simLambda_spec (PyVal.str "Acme") (PyVal.str "Acme")).2.2 rfl (by decide)

/-- C1 (amended): for an input table that has an `experiences` column,
none of the seven derived labels among its columns, and whose experiences
cells all pass the per-cell parse step without raising (as every
CSV-loaded table does; only multi-cell sequence cells raise), the run
succeeds, the output is the input table unchanged (content and order)
with exactly the seven derived columns appended on the right in
assignment order, and every output column keeps the input row count. -/
theorem c1_pipeline_frame (dec : String → Option PyVal) (ys : List String)
    (df : Table) (exCol parsed : List PyVal) (n : Nat)
    (hex : getCol? df "experiences" = some exCol)
    (happly : applyCol (safe_json_loads dec) exCol = Except.ok parsed)
    (hf : ∀ c ∈ df, c.1 ∉ derivedNames)
    (hwf : ∀ c ∈ df, c.2.length = n) :
    pipeline dec ys df = Except.ok (df ++ derivedOf ys df parsed)
    ∧ (derivedOf ys df parsed).map Prod.fst = derivedNames
    ∧ (∀ c ∈ df ++ derivedOf ys df parsed, c.2.length = n) := by
  have hne : df ≠ [] := getCol?_ne_nil df "experiences" exCol hex
  have hx : exCol.length = n := getCol?_length df "experiences" exCol n hex hwf
  have hp : parsed.length = n := (applyCol_length (safe_json_loads dec) exCol parsed happly).trans hx
  refine ⟨pipeline_ok dec ys df exCol parsed hex happly hf, rfl, ?_⟩
  intro c hc
  rcases List.mem_append.mp hc with h | h
  · exact hwf c h
  · simp only [derivedOf, List.mem_cons, List.not_mem_nil, or_false] at h
    rcases h with h | h | h | h | h | h | h
    · subst h; exact (ejFinal_length parsed).trans hp
    · subst h; exact (colP_length parsed).trans hp
    · subst h; exact (colC_length parsed).trans hp
    · subst h; exact (colT_length parsed).trans hp
    · subst h; exact (colU_length parsed).trans hp
    · subst h; exact (colV_length ys parsed).trans hp
    · subst h; exact colS_length df parsed n hne hp hwf

/-- Witness for C1 on a concrete one-row table: the output is the input
plus the seven derived columns, in order and under the specified names. -/
theorem c1_witness :
    pipeline decNone ["2015"] dfOnlyExp =
      Except.ok (dfOnlyExp ++ derivedOf ["2015"] dfOnlyExp [PyVal.none])
    ∧ (derivedOf ["2015"] dfOnlyExp [PyVal.none]).map Prod.fst = derivedNames :=
  ⟨(c1_pipeline_frame decNone ["2015"] dfOnlyExp [PyVal.nan] [PyVal.none] 1 rfl rfl
      (by decide) (by decide)).1,
   (c1_pipeline_frame decNone ["2015"] dfOnlyExp [PyVal.nan] [PyVal.none] 1 rfl rfl
      (by decide) (by decide)).2.1⟩

/-- Counterexample to C1 as stated: on an input table that already has an
`experiences_json` column, the run overwrites that column in place — its
content changes from `[str "KEEP"]` to `[null]` and only six columns are
appended — so not every original column is preserved unchanged. -/
theorem c1_counterexample :
    pipeline decNone ["2015"] dfKeep =
      Except.ok [("experiences", [PyVal.nan]),
                 ("experiences_json", [PyVal.none]),
                 ("current_job_time_period", [PyVal.str ""]),
                 ("current_company_name_from_exp", [PyVal.str ""]),
                 ("current_job_title_from_exp", [PyVal.str ""]),
                 ("current_linkedin_company_url_from_exp", [PyVal.str ""]),
                 ("current_job_time_period_validity", [PyVal.str ""]),
                 ("company_name_similarity_to_exp", [PyVal.str ""])]
    ∧ getCol? dfKeep "experiences_json" = some [PyVal.str "KEEP"]
    ∧ ¬ (some [PyVal.str "KEEP"] = some ([PyVal.none] : List PyVal)) := by
  refine ⟨rfl, rfl, ?_⟩
  intro h
  have h1 := Option.some.inj h
  have h2 := (List.cons.inj h1).1
  exact PyVal.noConfusion h2

/-- C5 (amended): a missing `company_name` column degrades gracefully —
the run (when it otherwise completes: `experiences` present, its cells
parsing without raising) yields the similarity column as the empty-string
sentinel in every row — but a missing `experiences` column aborts the
whole run with a `KeyError`. -/
theorem c5_missing_columns (dec : String → Option PyVal) (ys : List String)
    (df : Table) (exCol parsed : List PyVal) (n : Nat) :
    (getCol? df "experiences" = Option.none →
      pipeline dec ys df = Except.error "KeyError: experiences")
    ∧ (getCol? df "experiences" = some exCol →
      applyCol (safe_json_loads dec) exCol = Except.ok parsed →
      (∀ c ∈ df, c.1 ∉ derivedNames) →
      (∀ c ∈ df, c.2.length = n) →
      getCol? df "company_name" = Option.none →
      pipeline dec ys df = Except.ok (df ++ derivedOf ys df parsed)
      ∧ colS df parsed = List.replicate n (PyVal.str "")) := by
  constructor
  · exact pipeline_err dec ys df
  · intro hex happly hf hwf hcn
    have hne : df ≠ [] := getCol?_ne_nil df "experiences" exCol hex
    have hx : exCol.length = n := getCol?_length df "experiences" exCol n hex hwf
    have hp : parsed.length = n :=
      (applyCol_length (safe_json_loads dec) exCol parsed happly).trans hx
    refine ⟨pipeline_ok dec ys df exCol parsed hex happly hf, ?_⟩
    unfold colS
    rw [hcn]
    simp only [Option.getD_none]
    rw [nRows_eq df n hne hwf]
    rw [zipWith_replicate_left simLambda (PyVal.str "") (colC parsed) n
      ((colC_length parsed).trans hp)]
    have hconst : ∀ y ∈ colC parsed,
        simLambda (PyVal.str "") y = (fun _ => PyVal.str "") y := fun y _ => rfl
    rw [List.map_congr_left hconst, List.map_const', colC_length parsed, hp]

/-- Witness for C5 on a concrete one-row table lacking `company_name`: the
run completes and the similarity column is the sentinel in its single row. -/
theorem c5_witness :
    pipeline decNone ["2015"] dfOnlyExp =
      Except.ok (dfOnlyExp ++ derivedOf ["2015"] dfOnlyExp [PyVal.none])
    ∧ colS dfOnlyExp [PyVal.none] = List.replicate 1 (PyVal.str "") :=
  (c5_missing_columns decNone ["2015"] dfOnlyExp [PyVal.nan] [PyVal.none] 1).2 rfl rfl
    (by decide) (by decide) rfl

/-- Counterexample to C5 as stated: a table with no `experiences` column
makes the run abort with a `KeyError` instead of degrading gracefully. -/
theorem c5_counterexample :
    pipeline decNone ["2015"] dfNoExp = Except.error "KeyError: experiences" := rfl
